import Mathlib

/-!
# go-dict-sql: the search strategies of `sql_dict.go`

A shallow embedding of `dictionaryImp` (file `sql_dict.go`) and of the scalar
function registered by `defineRegexp` (file `regexp.go`).

Conventions of the embedding.

* A Go `string` is a Lean `String`; `[]rune(s)` is `s.data`, `len(s)` is
  `s.utf8ByteSize`.
* `uint8` values are natural numbers reduced `% 256` where they are produced.
* The SQL engine behind `d.db` is outside the repository.  It enters as the
  record `DB` of query outcomes: what each statement issued by the code
  returns, row by row, each row being the outcome of its `rows.Scan`.
* Functions of the Go standard library and of `go-dict-commons` whose
  behaviour the code does not fix (`strings.TrimSpace`, `strings.ToLower`,
  `json.Unmarshal`, the two scoring functions, the order in which `range`
  walks a map) are fields of the record `Env`; `regexp.MatchString` is an
  argument of `regexpFunc`.
* `SearchRegexOnStore` adds the run of the `REGEXP ?` statement by the engine,
  which calls the function registered by `defineRegexp` on the rows of the
  join; there a panic of that function is the result `none`.
* `ErrorHandler(err)` appends `err` to the `handled` list of the outcome.
  Calls of `log.Println`, `log.Printf` and the timers are not modelled.
* A `nil` slice is `none`, a non-nil slice `some l`.
-/

namespace SqlDict

/-! ## Errors, records of `go-dict-commons`, the store -/

/-- Errors that travel through the code. -/
inductive Err where
  /-- an error reported by the store driver or by a library function -/
  | ext (msg : String)
  /-- `fmt.Errorf("error running SQL query %#v: %v", sqlQ, err)` in `searchDB` -/
  | sqlQuery (sqlQ : String) (cause : Err)
  /-- `fmt.Errorf("bad regular expression: %q", err)` in `defineRegexp` -/
  | badRegexp (cause : Err)
  deriving DecidableEq, Repr

/-- `common.SearchResultItem`; `Type_` is the field `Type`, `Data` is
`[]byte(article)`, kept as the string it encodes. -/
structure SearchResultItem where
  Type_ : Char
  Data : String
  deriving DecidableEq, Repr

/-- `common.SearchResultLow`. `Items` is the deferred article accessor. -/
structure SearchResultLow where
  F_Score : Nat
  F_Terms : List String
  Items : Unit → Option (List SearchResultItem)
  F_EntryIndex : Nat

/-- `su.ScoreFuzzyArgs`. -/
structure ScoreFuzzyArgs where
  Query : String
  QueryRunes : List Char
  QueryMainWord : List Char
  QueryWordCount : Nat
  MinWordCount : Nat
  MainWordIndex : Nat
  deriving DecidableEq, Repr

/-- The outcomes of the statements the code sends to `d.db`. A list of rows is
what `rows.Next()` walks, each element the outcome of `rows.Scan` on that row. -/
structure DB where
  /-- `SELECT DISTINCT id, term FROM fuzzy3 WHERE sub IN(...)` with its arguments -/
  QueryFuzzy3 : String → List String → Except Err (List (Except Err (Int × String)))
  /-- the statement built by `searchDB`, with its two arguments -/
  QuerySearch : String → String → String → Except Err (List (Except Err (Int × String × String)))
  /-- `SELECT term FROM entry WHERE id = ?` followed by `row.Scan(&head)` -/
  EntryTerm : Int → Except Err String
  /-- `SELECT term FROM alt WHERE id = ?` -/
  AltTerms : Int → Except Err (List (Except Err String))
  /-- `SELECT article FROM entry WHERE id IS ?` followed by `row.Scan(&article)` -/
  EntryArticle : Int → Except Err String

/-- A `map[int]uint8` as the list of its key/value pairs, keys distinct. -/
abbrev ScoreMap := List (Int × Nat)

/-- The order in which `for id, score := range scoreMap` visits the map: some
rearrangement of its pairs. -/
structure MapRange where
  order : ScoreMap → ScoreMap
  perm : ∀ m, List.Perm (order m) m

/-- Library behaviour the code depends on. -/
structure Env where
  strings_TrimSpace : String → String
  strings_ToLower : String → String
  /-- `json.Unmarshal([]byte(altsJson), &alts)`: the value left in `alts` and the error -/
  json_Unmarshal : String → List String × Option Err
  /-- `su.ScoreFuzzySingle(term, args, buff)` -/
  ScoreFuzzySingle : String → ScoreFuzzyArgs → Nat
  /-- `su.ScoreStartsWith(terms, query)` -/
  ScoreStartsWith : List String → String → Nat
  range : MapRange

/-- What a strategy call leaves behind: the returned slice and the errors
handed to `ErrorHandler`, oldest first. -/
structure Outcome where
  results : Option (List SearchResultLow)
  handled : List Err

/-- The results of an outcome as a list (`nil` has none). -/
def Outcome.list (o : Outcome) : List SearchResultLow := o.results.getD []

/-- `const minScore = uint8(140)`. -/
def minScore : Nat := 140

/-- The normalization `strings.ToLower(strings.TrimSpace(query))` applied by
`SearchFuzzy` and `SearchStartWith`. -/
def normalize (env : Env) (query : String) : String :=
  env.strings_ToLower (env.strings_TrimSpace query)

/-! ## Library functions with fixed behaviour -/

/-- `strings.Split(s, " ")` on the runes of `s`. -/
def splitRunes : List Char → List (List Char)
  | [] => [[]]
  | c :: cs =>
    if c = ' ' then [] :: splitRunes cs
    else
      match splitRunes cs with
      | w :: ws => (c :: w) :: ws
      | [] => [[c]]

/-- `strings.Split(s, " ")`. -/
def strings_Split (s : String) : List String := (splitRunes s.data).map String.mk

/-- `strings.Repeat(s, count)`; `none` is the panic on a negative count. -/
def strings_Repeat (s : String) (count : Int) : Option String :=
  if count < 0 then none else some (String.join (List.replicate count.toNat s))

/-! ## Trigram generation (`SearchFuzzy`, lines 269-282) -/

/-- One pass of the body of the inner loop: `sub` is skipped when `subMap[sub]`,
otherwise recorded in `subMap` and appended to `sqlArgs`. The state is
`(sqlArgs, subMap)`, `subMap` being the list of keys set to `true`. -/
def addSub (st : List String × List String) (sub : String) : List String × List String :=
  if st.2.contains sub then st else (st.1 ++ [sub], sub :: st.2)

/-- The substring `string(e_runes[i : i+3])`. -/
def subAt (e_runes : List Char) (i : Nat) : String := String.mk ((e_runes.drop i).take 3)

/-- The body of `for _, word := range queryWords`. -/
def wordLoop (st : List String × List String) (word : String) : List String × List String :=
  let e_runes := ("\n" ++ word).data
  let n : Int := (e_runes.length : Int) - 2
  (List.range n.toNat).foldl (fun st i => addSub st (subAt e_runes i)) st

/-- The slice `sqlArgs` after the loop over `queryWords`. -/
def trigramArgs (queryWords : List String) : List String :=
  (queryWords.foldl wordLoop ([], [])).1

/-- The windows of length 3 of a rune sequence, left to right. -/
def slide3 : List Char → List String
  | a :: b :: c :: rest => String.mk [a, b, c] :: slide3 (b :: c :: rest)
  | _ => []

/-- The windows of a word: those of the word left-padded with the sentinel. -/
def windows (word : String) : List String := slide3 ('\n' :: word.data)

/-! ## `readArticle`, `newResult`, `getTerms`, `EntryByIndex` -/

/-- `readArticle`: `nil` when the scan of the article fails. -/
def readArticle (d : DB) (id : Int) : Option (List SearchResultItem) :=
  match d.EntryArticle id with
  | .error _ => none
  | .ok article => some [SearchResultItem.mk 'h' article]

/-- `newResult`: the accessor closes over `id`; `F_EntryIndex` is `uint64(id)`. -/
def newResult (d : DB) (terms : List String) (id : Int) (score : Nat) : SearchResultLow :=
  SearchResultLow.mk score terms (fun _ => readArticle d id) (id % 2 ^ 64).toNat

/-- The loop `for rows.Next()` of `getTerms`. -/
def altLoop : List (Except Err String) → List String → Except Err (List String)
  | [], terms => .ok terms
  | .error err :: _, _ => .error err
  | .ok term :: rest, terms => altLoop rest (terms ++ [term])

/-- `getTerms`: the primary term, then the alternates. -/
def getTerms (d : DB) (id : Int) : Except Err (List String) :=
  match d.EntryTerm id with
  | .error err => .error err
  | .ok head =>
    match d.AltTerms id with
    | .error err => .error err
    | .ok rows => altLoop rows [head]

/-- `EntryByIndex`. -/
def EntryByIndex (d : DB) (index : Int) : Option SearchResultLow :=
  match getTerms d (index + 1) with
  | .error _ => none
  | .ok terms => some (newResult d terms index 0)

/-! ## `searchDB`, `SearchStartWith`, `searchPattern`, `SearchRegex`, `SearchGlob` -/

/-- The statement text `sqlQ` of `searchDB`. -/
def searchSQL (termCond : String) : String :=
  "SELECT entry.id, entry.term, " ++
  "json_group_array(alt.term)" ++
  "FROM entry LEFT JOIN alt ON entry.id=alt.id " ++
  "WHERE entry.term " ++ termCond ++ " " ++
  "OR alt.term " ++ termCond ++ " " ++
  "GROUP BY entry.id;"

/-- `searchDB`: the rows (`none` for `nil`) and the errors handed to `ErrorHandler`. -/
def searchDB (d : DB) (termCond : String) (arg : String) :
    Option (List (Except Err (Int × String × String))) × List Err :=
  match d.QuerySearch (searchSQL termCond) arg arg with
  | .error err => (none, [Err.sqlQuery (searchSQL termCond) err])
  | .ok rows => (some rows, [])

/-- The loop `for rows.Next()` of `SearchStartWith`, from the state
`(results, handled)`. -/
def startWithLoop (env : Env) (d : DB) (query : String) :
    List (Except Err (Int × String × String)) → List SearchResultLow → List Err → Outcome
  | [], results, handled => Outcome.mk (some results) handled
  | .error err :: _, _, handled => Outcome.mk none (handled ++ [err])
  | .ok (id, term, altsJson) :: rest, results, handled =>
    let alts := (env.json_Unmarshal altsJson).1
    let handled := match (env.json_Unmarshal altsJson).2 with
      | some err => handled ++ [err]
      | none => handled
    let terms := term :: alts
    let score := env.ScoreStartsWith terms query % 256
    if score < minScore then startWithLoop env d query rest results handled
    else startWithLoop env d query rest (results ++ [newResult d terms id score]) handled

/-- `SearchStartWith`. -/
def SearchStartWith (env : Env) (d : DB) (query : String) : Outcome :=
  let query := normalize env query
  match searchDB d "LIKE ?" (query ++ "%") with
  | (none, handled) => Outcome.mk none handled
  | (some rows, handled) => startWithLoop env d query rows [] handled

/-- The loop `for _, term := range terms` of `searchPattern`, from the current `score`. -/
def checkTerms (checkTerm : String → Nat) : List String → Nat → Nat
  | [], score => score
  | term :: rest, score =>
    let termScore := checkTerm term
    if termScore > score then termScore else checkTerms checkTerm rest score

/-- The loop `for rows.Next()` of `searchPattern`. -/
def patternLoop (env : Env) (d : DB) (checkTerm : String → Nat) :
    List (Except Err (Int × String × String)) → List SearchResultLow → List Err → Outcome
  | [], results, handled => Outcome.mk (some results) handled
  | .error err :: _, _, handled => Outcome.mk none (handled ++ [err])
  | .ok (id, term, altsJson) :: rest, results, handled =>
    let alts := (env.json_Unmarshal altsJson).1
    let handled := match (env.json_Unmarshal altsJson).2 with
      | some err => handled ++ [err]
      | none => handled
    let terms := term :: alts
    let score := checkTerms checkTerm terms 0
    if score < minScore then patternLoop env d checkTerm rest results handled
    else patternLoop env d checkTerm rest (results ++ [newResult d terms id score]) handled

/-- `searchPattern`. -/
def searchPattern (env : Env) (d : DB) (termCond : String) (arg : String)
    (checkTerm : String → Nat) : Outcome :=
  match searchDB d termCond arg with
  | (none, handled) => Outcome.mk none handled
  | (some rows, handled) => patternLoop env d checkTerm rows [] handled

/-- The function literal passed as `checkTerm` by `SearchRegex` and, with the
same text, by `SearchGlob`: `200 - uint8(len(term))` below 20 bytes, else 180. -/
def lenScore (term : String) : Nat :=
  if term.utf8ByteSize < 20 then (200 + 256 - term.utf8ByteSize % 256) % 256 else 180

/-- `SearchRegex`: the results and the returned `error` (`none` for `nil`). -/
def SearchRegex (env : Env) (d : DB) (query : String) : Outcome × Option Err :=
  (searchPattern env d "REGEXP ?" ("^" ++ query ++ "$") lenScore, none)

/-- `SearchGlob`: the results and the returned `error` (`none` for `nil`). -/
def SearchGlob (env : Env) (d : DB) (query : String) : Outcome × Option Err :=
  (searchPattern env d "GLOB ?" query lenScore, none)

/-- A `driver.Value` handed to a registered scalar function: SQL NULL (the Go
`nil`), an integer, or text. -/
inductive Value where
  | null
  | integer (n : Int)
  | text (s : String)
  deriving DecidableEq, Repr

/-- What a call into Go code comes to: a panic, a returned error, a returned value. -/
inductive Call (α : Type) where
  | panic
  | error (err : Err)
  | ok (a : α)

/-- The scalar function registered under the name `regexp` by `defineRegexp`,
on its argument list `args`; `MatchString` is `regexp.MatchString`. The type
assertions `args[0].(string)` and `args[1].(string)` panic on a value that is
not text. -/
def regexpFunc (MatchString : String → String → Except Err Bool) (args : List Value) :
    Call Bool :=
  match args with
  | Value.text s1 :: Value.text s2 :: _ =>
    match MatchString s1 s2 with
    | .error err => .error (Err.badRegexp err)
    | .ok matched => .ok matched
  | _ => .panic

/-! ## The run of the `REGEXP ?` statement of `searchDB` by the engine

The engine is outside the repository. What is used of it: `X REGEXP Y` is the
call `regexp(Y, X)` of the registered function; the right operand of `OR` is
evaluated only when the left one is not true; a failing call fails the
statement; the rows that pass are grouped by `entry.id`. -/

/-- A row of `entry LEFT JOIN alt ON entry.id=alt.id`: `entry.id`, `entry.term`,
`alt.term` (NULL when the entry has no alternate). -/
abbrev JoinRow := Int × Value × Value

/-- The condition `entry.term REGEXP ? OR alt.term REGEXP ?` on one row, both
parameters bound to `arg`. -/
def whereRegexp (MatchString : String → String → Except Err Bool) (arg : String)
    (row : JoinRow) : Call Bool :=
  match regexpFunc MatchString [Value.text arg, row.2.1] with
  | .panic => .panic
  | .error err => .error err
  | .ok true => .ok true
  | .ok false => regexpFunc MatchString [Value.text arg, row.2.2]

/-- The rows of the join that pass the condition, in order. -/
def scanJoin (MatchString : String → String → Except Err Bool) (arg : String) :
    List JoinRow → Call (List JoinRow)
  | [] => .ok []
  | row :: rest =>
    match whereRegexp MatchString arg row with
    | .panic => .panic
    | .error err => .error err
    | .ok keep =>
      match scanJoin MatchString arg rest with
      | .panic => .panic
      | .error err => .error err
      | .ok rows => .ok (if keep then row :: rows else rows)

/-- One more row for `GROUP BY entry.id`: its alternate joins the group of its
entry, or the row opens a group. -/
def addToGroup : List (Int × Value × List Value) → JoinRow → List (Int × Value × List Value)
  | [], row => [(row.1, row.2.1, [row.2.2])]
  | g :: rest, row =>
    if g.1 = row.1 then (g.1, g.2.1, g.2.2 ++ [row.2.2]) :: rest
    else g :: addToGroup rest row

/-- The groups of `GROUP BY entry.id`: entry id, entry term, alternates. -/
def groupById (rows : List JoinRow) : List (Int × Value × List Value) :=
  rows.foldl addToGroup []

/-- A store as the `REGEXP ?` statement sees it. -/
structure RegexpStore where
  /-- the rows of `entry LEFT JOIN alt ON entry.id=alt.id` -/
  joined : List JoinRow
  /-- the outcome of `rows.Scan(&id, &term, &altsJson)` on a group, `altsJson`
  being `json_group_array(alt.term)` -/
  scanGroup : Int × Value × List Value → Except Err (Int × String × String)
  /-- the outcomes of the other statements -/
  db : DB

/-- The store `d` with `answer` as the outcome of the `REGEXP ?` statement. -/
def withRegexpAnswer (d : DB)
    (answer : Except Err (List (Except Err (Int × String × String)))) : DB :=
  DB.mk d.QueryFuzzy3
    (fun sqlQ arg1 arg2 =>
      if sqlQ = searchSQL "REGEXP ?" then answer else d.QuerySearch sqlQ arg1 arg2)
    d.EntryTerm d.AltTerms d.EntryArticle

/-- `SearchRegex` on a dictionary whose `db` is the store `st`: the engine runs
the statement, calling the registered function; `none` is a panic of that
function, which ends the call of `SearchRegex`. -/
def SearchRegexOnStore (env : Env) (MatchString : String → String → Except Err Bool)
    (st : RegexpStore) (query : String) : Option (Outcome × Option Err) :=
  match scanJoin MatchString ("^" ++ query ++ "$") st.joined with
  | .panic => none
  | .error err => some (SearchRegex env (withRegexpAnswer st.db (.error err)) query)
  | .ok rows =>
    some (SearchRegex env
      (withRegexpAnswer st.db (.ok ((groupById rows).map st.scanGroup))) query)

/-! ## `SearchFuzzy` -/

/-- `scoreMap[id]`: zero for an absent key. -/
def mapGet : ScoreMap → Int → Nat
  | [], _ => 0
  | (k, v) :: rest, id => if k = id then v else mapGet rest id

/-- `scoreMap[id] = score`. -/
def mapSet : ScoreMap → Int → Nat → ScoreMap
  | [], id, score => [(id, score)]
  | (k, v) :: rest, id, score =>
    if k = id then (k, score) :: rest else (k, v) :: mapSet rest id score

/-- The loop `for mainWordIndex < len(queryWords)-1 && queryWords[mainWordIndex] == "*"`;
the list is `queryWords[mainWordIndex:]`. -/
def mainWordIndexFrom : List String → Nat → Nat
  | w :: w2 :: rest, mainWordIndex =>
    if w = "*" then mainWordIndexFrom (w2 :: rest) (mainWordIndex + 1) else mainWordIndex
  | _, mainWordIndex => mainWordIndex

/-- The loop computing `(minWordCount, queryWordCount)`. -/
def countWords : List String → Nat × Nat → Nat × Nat
  | [], st => st
  | word :: rest, st =>
    if word = "*" then countWords rest (st.1 + 1, st.2) else countWords rest (st.1, st.2 + 1)

/-- The record `args` built by `SearchFuzzy`. -/
def fuzzyArgs (query : String) (queryWords : List String) : ScoreFuzzyArgs :=
  let mainWordIndex := mainWordIndexFrom queryWords 0
  let counts := countWords queryWords (1, 0)
  ScoreFuzzyArgs.mk query query.data (queryWords.getD mainWordIndex "").data
    counts.2 counts.1 mainWordIndex

/-- The loop `for rows.Next()` of `SearchFuzzy`, from the current `scoreMap`. -/
def scoreLoop (env : Env) (args : ScoreFuzzyArgs) :
    List (Except Err (Int × String)) → ScoreMap → Except Err ScoreMap
  | [], scoreMap => .ok scoreMap
  | .error err :: _, _ => .error err
  | .ok (id, term) :: rest, scoreMap =>
    let score := env.ScoreFuzzySingle term args % 256
    if score < minScore then scoreLoop env args rest scoreMap
    else if score > mapGet scoreMap id then scoreLoop env args rest (mapSet scoreMap id score)
    else scoreLoop env args rest scoreMap

/-- The loop `for id, score := range scoreMap` of `SearchFuzzy`, over the pairs
in the order of the walk. -/
def resultLoop (d : DB) : List (Int × Nat) → List SearchResultLow →
    Except Err (List SearchResultLow)
  | [], results => .ok results
  | (id, score) :: rest, results =>
    match getTerms d id with
    | .error err => .error err
    | .ok terms => resultLoop d rest (results ++ [newResult d terms id score])

/-- `SearchFuzzy` after `d.db.Query` returned `rows`. -/
def fuzzyCollect (env : Env) (d : DB) (args : ScoreFuzzyArgs)
    (rows : List (Except Err (Int × String))) : Outcome :=
  match scoreLoop env args rows [] with
  | .error err => Outcome.mk none [err]
  | .ok scoreMap =>
    match resultLoop d (env.range.order scoreMap) [] with
    | .error err => Outcome.mk none [err]
    | .ok results => Outcome.mk (some results) []

/-- The statement text `sqlQuery` of `SearchFuzzy` for `n` arguments:
`strings.Repeat("?, ", n-1) + "?"` between the two fixed parts; `none` is the
panic of `strings.Repeat`. -/
def fuzzySQL (n : Nat) : Option String :=
  match strings_Repeat "?, " ((n : Int) - 1) with
  | none => none
  | some marks =>
    let qMarks := marks ++ "?"
    some ("SELECT DISTINCT id, term FROM fuzzy3 WHERE sub IN(" ++ qMarks ++ ");")

/-- `SearchFuzzy`; `none` is a panic (of `strings.Repeat`). -/
def SearchFuzzy (env : Env) (d : DB) (query : String) : Option Outcome :=
  if query.utf8ByteSize < 2 then some (Outcome.mk none [])
  else
    let query := normalize env query
    let queryWords := strings_Split query
    let queryRunes := query.data
    let maxSubCount : Int := (queryRunes.length : Int) - 2 * (queryWords.length : Int)
    if maxSubCount < 0 then some (SearchStartWith env d query)
    else
      let sqlArgs := trigramArgs queryWords
      match fuzzySQL sqlArgs.length with
      | none => none
      | some sqlQuery =>
        match d.QueryFuzzy3 sqlQuery sqlArgs with
        | .error err => some (Outcome.mk none [err])
        | .ok rows => some (fuzzyCollect env d (fuzzyArgs query queryWords) rows)

/-! ## Definitions used to state the properties -/

/-- The maximum score over all rows of entry `id` (zero when it has none). -/
def maxRowScore (score : String → Nat) : List (Int × String) → Int → Nat
  | [], _ => 0
  | row :: rest, id =>
    if row.1 = id then max (score row.2) (maxRowScore score rest id)
    else maxRowScore score rest id

/-- The largest score at least `minScore` among the rows of entry `id`, zero
when there is none: what the loop of `SearchFuzzy` keeps for `id`. -/
def keptScore (score : String → Nat) (rows : List (Int × String)) (id : Int) : Nat :=
  match rows with
  | [] => 0
  | row :: rest =>
    if row.1 = id ∧ minScore ≤ score row.2 then max (score row.2) (keptScore score rest id)
    else keptScore score rest id

/-- The terms `getTerms` reports for `id`, none when the lookup fails. -/
def termsOf (d : DB) (id : Int) : List String :=
  match getTerms d id with
  | .ok terms => terms
  | .error _ => []

/-- The terms of a row of `searchDB`: the primary term, then the decoded alternates. -/
def rowTerms (env : Env) (row : Int × String × String) : List String :=
  row.2.1 :: (env.json_Unmarshal row.2.2).1

/-- The score of the first term, in order, whose term score is positive; zero
when no term has one. -/
def firstPositive (termScore : String → Nat) (terms : List String) : Nat :=
  match terms.find? (fun term => decide (0 < termScore term)) with
  | some term => termScore term
  | none => 0

/-- The term score by length in bytes: `200 - n` for a term of `n < 20` bytes, else 180. -/
def byteScore (term : String) : Nat :=
  if term.utf8ByteSize < 20 then 200 - term.utf8ByteSize else 180

/-- The term score by length in runes: `200 - n` for a term of `n < 20` runes, else 180. -/
def runeScore (term : String) : Nat :=
  if term.length < 20 then 200 - term.length else 180

/-- The state of the trigram loop is consistent: `sqlArgs` has no repetition
and `subMap` holds exactly its elements. -/
def subsInv (st : List String × List String) : Prop :=
  st.1.Nodup ∧ ∀ s, s ∈ st.2 ↔ s ∈ st.1

/-! ## Concrete library behaviour and stores -/

/-- ASCII white space. -/
def isSpaceASCII (c : Char) : Bool := c = ' ' || c = '\t' || c = '\n' || c = '\r'

/-- `strings.TrimSpace` on ASCII text. -/
def trimASCII (s : String) : String :=
  String.mk ((s.data.dropWhile isSpaceASCII).reverse.dropWhile isSpaceASCII).reverse

/-- `strings.ToLower` on ASCII text. -/
def lowerASCII (s : String) : String := String.mk (s.data.map Char.toLower)

/-- `json.Unmarshal` into a `[]string` on the texts used below: `[null]`, the
aggregate of an entry without alternates, decodes to one empty string; `[5]`,
the aggregate of an alternate stored as a number, leaves one empty string and
reports the type error; any other text is rejected and leaves `alts` nil. -/
def unmarshalSample (altsJson : String) : List String × Option Err :=
  if altsJson = "[null]" then ([""], none)
  else if altsJson = "[5]" then
    ([""], some (Err.ext "json: cannot unmarshal number into Go value of type string"))
  else ([], some (Err.ext "invalid character"))

/-- The walk of a map in the order of its list. -/
def rangeInOrder : MapRange := MapRange.mk (fun m => m) (fun m => List.Perm.refl m)

/-- A sample environment: every prefix score is 200; the fuzzy score is 200 on
the term `cat`, 150 on `cats` and 100 otherwise. -/
def sampleEnv : Env :=
  Env.mk trimASCII lowerASCII unmarshalSample
    (fun term _ => if term = "cat" then 200 else if term = "cats" then 150 else 100)
    (fun _ _ => 200) rangeInOrder

/-- A store with the entries `1: cat` (alternate `cats`, article `A1`) and
`2: catalog` (article `A2`). The trigram statement returns their three terms
when `cat` is among its arguments. The search statements are not used with
this store and return no row. -/
def sampleDB : DB :=
  DB.mk
    (fun _ sqlArgs =>
      if sqlArgs.contains "cat" then .ok [.ok (1, "cat"), .ok (2, "catalog"), .ok (1, "cats")]
      else .ok [])
    (fun _ _ _ => .ok [])
    (fun id =>
      if id = 1 then .ok "cat" else if id = 2 then .ok "catalog"
      else .error (Err.ext "sql: no rows in result set"))
    (fun id => if id = 1 then .ok [.ok "cats"] else .ok [])
    (fun id =>
      if id = 1 then .ok "A1" else if id = 2 then .ok "A2"
      else .error (Err.ext "sql: no rows in result set"))

/-- A store with the single entry `1: a`, without alternates: the statement
`LIKE ?` returns its row for the arguments `a%` and `%`. -/
def letterDB : DB :=
  DB.mk (fun _ _ => .ok [])
    (fun sqlQ arg _ =>
      if sqlQ = searchSQL "LIKE ?" ∧ (arg = "a%" ∨ arg = "%") then
        .ok [.ok (1, "a", "[null]")]
      else .ok [])
    (fun id => if id = 1 then .ok "a" else .error (Err.ext "sql: no rows in result set"))
    (fun _ => .ok [])
    (fun id => if id = 1 then .ok "A1" else .error (Err.ext "sql: no rows in result set"))

/-- A store with the single entry `1: é`, without alternates: the statement
`GLOB ?` returns its row for the argument `é`, the statement `REGEXP ?` for `^é$`. -/
def accentDB : DB :=
  DB.mk (fun _ _ => .ok [])
    (fun sqlQ arg _ =>
      if (sqlQ = searchSQL "GLOB ?" ∧ arg = "é") ∨ (sqlQ = searchSQL "REGEXP ?" ∧ arg = "^é$")
      then .ok [.ok (1, "é", "[null]")]
      else .ok [])
    (fun id => if id = 1 then .ok "é" else .error (Err.ext "sql: no rows in result set"))
    (fun _ => .ok [])
    (fun id => if id = 1 then .ok "A1" else .error (Err.ext "sql: no rows in result set"))

/-- A store with the single entry `1: cat` whose one alternate is stored as the
number 5, so that the aggregate of its alternates is `[5]`: the statements
`LIKE ?` with `cat%`, `GLOB ?` with `cat` and `REGEXP ?` with `^cat$` return its row. -/
def numberAltDB : DB :=
  DB.mk (fun _ _ => .ok [])
    (fun sqlQ arg _ =>
      if (sqlQ = searchSQL "LIKE ?" ∧ arg = "cat%") ∨ (sqlQ = searchSQL "GLOB ?" ∧ arg = "cat")
        ∨ (sqlQ = searchSQL "REGEXP ?" ∧ arg = "^cat$")
      then .ok [.ok (1, "cat", "[5]")]
      else .ok [])
    (fun id => if id = 1 then .ok "cat" else .error (Err.ext "sql: no rows in result set"))
    (fun id => if id = 1 then .ok [.ok "5"] else .ok [])
    (fun id => if id = 1 then .ok "A1" else .error (Err.ext "sql: no rows in result set"))

/-- A store with the single entry `1: a primary term of many bytes`, without
alternates: the statement `GLOB ?` returns its row for the argument `a*`. -/
def longTermDB : DB :=
  DB.mk (fun _ _ => .ok [])
    (fun sqlQ arg _ =>
      if sqlQ = searchSQL "GLOB ?" ∧ arg = "a*" then
        .ok [.ok (1, "a primary term of many bytes", "[null]")]
      else .ok [])
    (fun id =>
      if id = 1 then .ok "a primary term of many bytes"
      else .error (Err.ext "sql: no rows in result set"))
    (fun _ => .ok [])
    (fun id => if id = 1 then .ok "A1" else .error (Err.ext "sql: no rows in result set"))

/-- The text made of one backslash. -/
def backslash : String := String.singleton (Char.ofNat 92)

/-- `regexp.MatchString` on the patterns used below: the pattern `^[$` and the
pattern made of one backslash do not compile; the pattern `^`, backslash, `$`
matches a text that starts with a dollar sign; any other pattern is taken as
an anchored literal. -/
def sampleMatchString (pattern : String) (text : String) : Except Err Bool :=
  if pattern = "^[$" then .error (Err.ext "error parsing regexp: missing closing ]")
  else if pattern = backslash then
    .error (Err.ext "error parsing regexp: trailing backslash at end of expression")
  else if pattern = "^" ++ backslash ++ "$" then .ok (decide (text.data.head? = some '$'))
  else .ok (decide (pattern = "^" ++ text ++ "$"))

/-- The scan of a group on the values used below: a text term with the
alternates `[NULL]` gives the aggregate `[null]`. -/
def sampleScanGroup (g : Int × Value × List Value) : Except Err (Int × String × String) :=
  match g with
  | (id, Value.text term, [Value.null]) => .ok (id, term, "[null]")
  | _ => .error (Err.ext "sql: Scan error")

/-- The statements other than `REGEXP ?` of a store with one entry `term`,
without alternates, of article `A1`. -/
def oneEntryDB (term : String) : DB :=
  DB.mk (fun _ _ => .ok []) (fun _ _ _ => .ok [])
    (fun id => if id = 1 then .ok term else .error (Err.ext "sql: no rows in result set"))
    (fun _ => .ok [])
    (fun id => if id = 1 then .ok "A1" else .error (Err.ext "sql: no rows in result set"))

/-- A store with the single entry `1: cat`, without alternates. -/
def catStore : RegexpStore :=
  RegexpStore.mk [(1, Value.text "cat", Value.null)] sampleScanGroup (oneEntryDB "cat")

/-- A store with the single entry `1: $`, without alternates. -/
def dollarStore : RegexpStore :=
  RegexpStore.mk [(1, Value.text "$", Value.null)] sampleScanGroup (oneEntryDB "$")

/-- A store whose single entry has a NULL term. -/
def nullTermStore : RegexpStore :=
  RegexpStore.mk [(1, Value.null, Value.null)] sampleScanGroup (oneEntryDB "")

/-- A store with the single entry `1: é`, without alternates: the statement
`LIKE ?` returns its row for the argument `é%`. -/
def accentPrefixDB : DB :=
  DB.mk (fun _ _ => .ok [])
    (fun sqlQ arg _ =>
      if sqlQ = searchSQL "LIKE ?" ∧ arg = "é%" then .ok [.ok (1, "é", "[null]")]
      else .ok [])
    (fun id => if id = 1 then .ok "é" else .error (Err.ext "sql: no rows in result set"))
    (fun _ => .ok [])
    (fun id => if id = 1 then .ok "A1" else .error (Err.ext "sql: no rows in result set"))

set_option maxRecDepth 100000

/-! ## Trigram generation -/

theorem splitRunes_ne_nil (l : List Char) : splitRunes l ≠ [] := by
  cases l with
  | nil => simp [splitRunes]
  | cons c cs =>
    simp only [splitRunes]
    split
    · simp
    · split <;> simp

theorem splitRunes_length_sum (l : List Char) :
    ((splitRunes l).map (fun w => w.length + 1)).sum = l.length + 1 := by
  induction l with
  | nil => simp [splitRunes]
  | cons c cs ih =>
    simp only [splitRunes]
    split
    · simp only [List.map_cons, List.sum_cons, List.length_nil, List.length_cons, ih]
      omega
    · split
      · rename_i w ws hw
        rw [hw] at ih
        simp only [List.map_cons, List.sum_cons, List.length_cons] at ih ⊢
        omega
      · rename_i hw
        exact absurd hw (splitRunes_ne_nil cs)

theorem sum_le_of_short (ws : List (List Char)) (h : ∀ w ∈ ws, w.length ≤ 1) :
    (ws.map (fun w => w.length + 1)).sum ≤ 2 * ws.length := by
  induction ws with
  | nil => simp
  | cons w ws ih =>
    have h1 := h w (List.mem_cons_self _ _)
    have h2 := ih (fun v hv => h v (List.mem_cons_of_mem _ hv))
    simp only [List.map_cons, List.sum_cons, List.length_cons]
    omega

theorem exists_long_word (l : List Char)
    (h : 0 ≤ (l.length : Int) - 2 * ((splitRunes l).length : Int)) :
    ∃ w ∈ splitRunes l, 2 ≤ w.length := by
  by_contra hno
  have hshort : ∀ w ∈ splitRunes l, w.length ≤ 1 := by
    intro w hw
    by_contra hlt
    exact hno ⟨w, hw, by omega⟩
  have h1 := sum_le_of_short _ hshort
  have h2 := splitRunes_length_sum l
  omega

theorem subAt_succ (a : Char) (l : List Char) (i : Nat) : subAt (a :: l) (i + 1) = subAt l i := by
  simp [subAt]

theorem slide3_eq_map (l : List Char) :
    slide3 l = (List.range (l.length - 2)).map (subAt l) := by
  induction l with
  | nil => simp [slide3]
  | cons a l ih =>
    match l, ih with
    | [], _ => simp [slide3]
    | [b], _ => simp [slide3]
    | b :: c :: rest, ih =>
      have hlen : (a :: b :: c :: rest).length - 2 = ((b :: c :: rest).length - 2) + 1 := by
        simp
      rw [hlen, List.range_succ_eq_map, List.map_cons, List.map_map, slide3, ih]
      congr 1

theorem slide3_length (l : List Char) : (slide3 l).length = l.length - 2 := by
  rw [slide3_eq_map]; simp

theorem slide3_mem_length (l : List Char) : ∀ s ∈ slide3 l, s.length = 3 := by
  induction l with
  | nil => simp [slide3]
  | cons a l ih =>
    match l, ih with
    | [], _ => simp [slide3]
    | [b], _ => simp [slide3]
    | b :: c :: rest, ih =>
      intro s hs
      rw [slide3, List.mem_cons] at hs
      rcases hs with rfl | hs
      · rfl
      · exact ih s hs

theorem append_newline_data (word : String) : ("\n" ++ word).data = '\n' :: word.data := by
  rw [String.data_append]; rfl

theorem wordLoop_eq (st : List String × List String) (word : String) :
    wordLoop st word = (windows word).foldl addSub st := by
  have hn : (((('\n' :: word.data).length : Nat) : Int) - 2).toNat
      = ('\n' :: word.data).length - 2 := by
    simp only [List.length_cons]
    omega
  simp only [wordLoop, windows, slide3_eq_map, List.foldl_map, append_newline_data, hn]

theorem addSub_inv (st : List String × List String) (sub : String) (h : subsInv st) :
    subsInv (addSub st sub) ∧ ∀ s, s ∈ (addSub st sub).1 ↔ s ∈ st.1 ∨ s = sub := by
  obtain ⟨hnd, hmem⟩ := h
  unfold addSub
  by_cases hc : st.2.contains sub = true
  · rw [if_pos hc]
    have hin : sub ∈ st.1 := (hmem sub).1 (by simpa using hc)
    refine ⟨⟨hnd, hmem⟩, fun s => ⟨fun hs => Or.inl hs, fun hs => ?_⟩⟩
    rcases hs with hs | rfl
    · exact hs
    · exact hin
  · rw [if_neg hc]
    have hnin : sub ∉ st.1 := fun hin => hc (by simpa using (hmem sub).2 hin)
    refine ⟨⟨?_, fun s => ?_⟩, fun s => ?_⟩
    · exact List.Nodup.append hnd (List.nodup_singleton sub) (by
        intro x hx hx2
        rw [List.mem_singleton] at hx2
        exact hnin (hx2 ▸ hx))
    · simp only [List.mem_cons, List.mem_append, List.mem_singleton, hmem s]
      tauto
    · simp only [List.mem_append, List.mem_singleton]

theorem foldl_addSub_inv (subs : List String) (st : List String × List String)
    (h : subsInv st) :
    subsInv (subs.foldl addSub st) ∧
      ∀ s, s ∈ (subs.foldl addSub st).1 ↔ s ∈ st.1 ∨ s ∈ subs := by
  induction subs generalizing st with
  | nil => simpa using h
  | cons sub subs ih =>
    obtain ⟨h1, h2⟩ := addSub_inv st sub h
    obtain ⟨h3, h4⟩ := ih (addSub st sub) h1
    refine ⟨h3, fun s => ?_⟩
    rw [List.foldl_cons, h4, h2, List.mem_cons]
    tauto

theorem foldl_wordLoop_inv (words : List String) (st : List String × List String)
    (h : subsInv st) :
    subsInv (words.foldl wordLoop st) ∧
      ∀ s, s ∈ (words.foldl wordLoop st).1 ↔ s ∈ st.1 ∨ ∃ word ∈ words, s ∈ windows word := by
  induction words generalizing st with
  | nil => simpa using h
  | cons word words ih =>
    have hw := foldl_addSub_inv (windows word) st h
    rw [← wordLoop_eq] at hw
    obtain ⟨h3, h4⟩ := ih (wordLoop st word) hw.1
    refine ⟨h3, fun s => ?_⟩
    rw [List.foldl_cons, h4, hw.2]
    simp only [List.mem_cons, exists_eq_or_imp]
    tauto

theorem trigramArgs_nodup (words : List String) : (trigramArgs words).Nodup :=
  (foldl_wordLoop_inv words ([], []) ⟨List.nodup_nil, fun _ => Iff.rfl⟩).1.1

theorem mem_trigramArgs (words : List String) (s : String) :
    s ∈ trigramArgs words ↔ ∃ word ∈ words, s ∈ windows word := by
  have h := (foldl_wordLoop_inv words ([], []) ⟨List.nodup_nil, fun _ => Iff.rfl⟩).2 s
  simpa [trigramArgs] using h

theorem trigramArgs_ne_nil (query : String)
    (h : 0 ≤ (query.data.length : Int) - 2 * ((strings_Split query).length : Int)) :
    trigramArgs (strings_Split query) ≠ [] := by
  have hlen : (strings_Split query).length = (splitRunes query.data).length := by
    simp [strings_Split]
  rw [hlen] at h
  obtain ⟨w, hw, hw2⟩ := exists_long_word query.data h
  have hmemw : String.mk w ∈ strings_Split query := List.mem_map_of_mem _ hw
  have hwin : (windows (String.mk w)).length = w.length - 1 := by
    simp [windows, slide3_length]
  cases hwl : windows (String.mk w) with
  | nil => rw [hwl] at hwin; simp at hwin; omega
  | cons s rest =>
    have hs : s ∈ trigramArgs (strings_Split query) :=
      (mem_trigramArgs _ s).2 ⟨String.mk w, hmemw, by rw [hwl]; exact List.mem_cons_self _ _⟩
    exact List.ne_nil_of_mem hs

/-! ## The score map -/

theorem mapGet_mapSet (m : ScoreMap) (i id : Int) (s : Nat) :
    mapGet (mapSet m i s) id = if i = id then s else mapGet m id := by
  induction m with
  | nil => simp [mapSet, mapGet]
  | cons p m ih =>
    obtain ⟨k, v⟩ := p
    by_cases hk : k = i
    · subst hk
      by_cases hid : k = id <;> simp [mapSet, mapGet, hid]
    · by_cases hid : k = id
      · subst hid
        have hne : ¬ i = k := fun h => hk h.symm
        simp [mapSet, mapGet, hk, hne]
      · simp [mapSet, mapGet, hk, hid, ih]

theorem mem_mapSet (m : ScoreMap) (i : Int) (s : Nat) (p : Int × Nat)
    (h : p ∈ mapSet m i s) : p = (i, s) ∨ p ∈ m := by
  induction m with
  | nil => simpa [mapSet] using h
  | cons q m ih =>
    obtain ⟨k, v⟩ := q
    by_cases hk : k = i
    · subst hk
      simp only [mapSet, if_true, List.mem_cons] at h
      rcases h with h | h
      · exact Or.inl h
      · exact Or.inr (List.mem_cons_of_mem _ h)
    · simp only [mapSet, hk, if_false, List.mem_cons] at h
      rcases h with h | h
      · exact Or.inr (h ▸ List.mem_cons_self _ _)
      · rcases ih h with h | h
        · exact Or.inl h
        · exact Or.inr (List.mem_cons_of_mem _ h)

theorem keys_mapSet (m : ScoreMap) (i : Int) (s : Nat) (k : Int)
    (h : k ∈ (mapSet m i s).map Prod.fst) : k = i ∨ k ∈ m.map Prod.fst := by
  obtain ⟨p, hp, rfl⟩ := List.mem_map.1 h
  rcases mem_mapSet m i s p hp with h | h
  · exact Or.inl (by rw [h])
  · exact Or.inr (List.mem_map_of_mem _ h)

theorem nodup_mapSet (m : ScoreMap) (i : Int) (s : Nat) (h : (m.map Prod.fst).Nodup) :
    ((mapSet m i s).map Prod.fst).Nodup := by
  induction m with
  | nil => simp [mapSet]
  | cons q m ih =>
    obtain ⟨k, v⟩ := q
    rw [List.map_cons, List.nodup_cons] at h
    by_cases hk : k = i
    · subst hk
      simpa [mapSet] using h
    · simp only [mapSet, hk, if_false, List.map_cons, List.nodup_cons]
      refine ⟨fun hin => ?_, ih h.2⟩
      rcases keys_mapSet m i s k hin with h1 | h1
      · exact hk h1
      · exact h.1 h1

theorem mapGet_of_mem (m : ScoreMap) (h : (m.map Prod.fst).Nodup) (id : Int) (s : Nat)
    (hm : (id, s) ∈ m) : mapGet m id = s := by
  induction m with
  | nil => simp at hm
  | cons q m ih =>
    obtain ⟨k, v⟩ := q
    rw [List.map_cons, List.nodup_cons] at h
    rw [List.mem_cons] at hm
    rcases hm with hm | hm
    · injection hm with h1 h2
      subst h1; subst h2
      simp [mapGet]
    · have hne : ¬ k = id := by
        rintro rfl
        exact h.1 (List.mem_map.2 ⟨(k, s), hm, rfl⟩)
      simp [mapGet, hne, ih h.2 hm]

theorem mem_of_mapGet (m : ScoreMap) (id : Int) (h : mapGet m id ≠ 0) :
    (id, mapGet m id) ∈ m := by
  induction m with
  | nil => simp [mapGet] at h
  | cons q m ih =>
    obtain ⟨k, v⟩ := q
    by_cases hk : k = id
    · subst hk
      simp [mapGet]
    · simp only [mapGet, hk, if_false] at h ⊢
      exact List.mem_cons_of_mem _ (ih h)

theorem keptScore_cons (score : String → Nat) (row : Int × String)
    (rest : List (Int × String)) (id : Int) :
    keptScore score (row :: rest) id =
      if row.1 = id ∧ minScore ≤ score row.2 then max (score row.2) (keptScore score rest id)
      else keptScore score rest id := rfl

theorem scoreLoop_ok (env : Env) (args : ScoreFuzzyArgs) (rows : List (Int × String))
    (m : ScoreMap) (hnd : (m.map Prod.fst).Nodup) (hval : ∀ p ∈ m, minScore ≤ p.2) :
    ∃ m2, scoreLoop env args (rows.map Except.ok) m = .ok m2 ∧
      (m2.map Prod.fst).Nodup ∧ (∀ p ∈ m2, minScore ≤ p.2) ∧
      ∀ id, mapGet m2 id =
        max (mapGet m id) (keptScore (fun t => env.ScoreFuzzySingle t args % 256) rows id) := by
  induction rows generalizing m with
  | nil => exact ⟨m, rfl, hnd, hval, fun id => by simp [keptScore]⟩
  | cons row rows ih =>
    obtain ⟨i, t⟩ := row
    simp only [List.map_cons, scoreLoop]
    by_cases h1 : env.ScoreFuzzySingle t args % 256 < minScore
    · rw [if_pos h1]
      obtain ⟨m2, e, n2, v2, g2⟩ := ih m hnd hval
      refine ⟨m2, e, n2, v2, fun id => ?_⟩
      rw [g2 id]
      have : ¬ (i = id ∧ minScore ≤ env.ScoreFuzzySingle t args % 256) := by
        rintro ⟨_, h⟩; omega
      rw [keptScore_cons, if_neg this]
    · rw [if_neg h1]
      by_cases h2 : env.ScoreFuzzySingle t args % 256 > mapGet m i
      · rw [if_pos h2]
        obtain ⟨m2, e, n2, v2, g2⟩ := ih (mapSet m i (env.ScoreFuzzySingle t args % 256))
          (nodup_mapSet m i _ hnd) (by
            intro p hp
            rcases mem_mapSet m i _ p hp with h | h
            · rw [h]; exact Nat.le_of_not_lt h1
            · exact hval p h)
        refine ⟨m2, e, n2, v2, fun id => ?_⟩
        rw [g2 id, mapGet_mapSet]
        by_cases hid : i = id
        · subst hid
          have : (i = i ∧ minScore ≤ env.ScoreFuzzySingle t args % 256) :=
            ⟨rfl, Nat.le_of_not_lt h1⟩
          rw [keptScore_cons, if_pos this]
          simp only [if_true]
          omega
        · have : ¬ (i = id ∧ minScore ≤ env.ScoreFuzzySingle t args % 256) := fun h => hid h.1
          rw [keptScore_cons, if_neg this, if_neg hid]
      · rw [if_neg h2]
        obtain ⟨m2, e, n2, v2, g2⟩ := ih m hnd hval
        refine ⟨m2, e, n2, v2, fun id => ?_⟩
        rw [g2 id]
        by_cases hid : i = id
        · subst hid
          have : (i = i ∧ minScore ≤ env.ScoreFuzzySingle t args % 256) :=
            ⟨rfl, Nat.le_of_not_lt h1⟩
          rw [keptScore_cons, if_pos this]
          simp only [if_true]
          omega
        · have : ¬ (i = id ∧ minScore ≤ env.ScoreFuzzySingle t args % 256) := fun h => hid h.1
          rw [keptScore_cons, if_neg this]

theorem keptScore_eq (score : String → Nat) (rows : List (Int × String)) (id : Int) :
    keptScore score rows id =
      if minScore ≤ maxRowScore score rows id then maxRowScore score rows id else 0 := by
  induction rows with
  | nil => simp [keptScore, maxRowScore]
  | cons row rows ih =>
    rw [keptScore_cons, ih]
    simp only [maxRowScore]
    by_cases h1 : row.1 = id
    · simp only [h1, true_and, if_true]
      split_ifs <;> omega
    · simp only [h1, false_and, if_false]

theorem exists_row_of_maxRowScore (score : String → Nat) (rows : List (Int × String))
    (id : Int) (h : 0 < maxRowScore score rows id) : ∃ row ∈ rows, row.1 = id := by
  induction rows with
  | nil => simp [maxRowScore] at h
  | cons row rows ih =>
    by_cases h1 : row.1 = id
    · exact ⟨row, List.mem_cons_self _ _, h1⟩
    · simp only [maxRowScore, h1, if_false] at h
      obtain ⟨r, hr, e⟩ := ih h
      exact ⟨r, List.mem_cons_of_mem _ hr, e⟩

theorem resultLoop_ok (d : DB) (l : List (Int × Nat)) (acc : List SearchResultLow)
    (h : ∀ p ∈ l, ∃ terms, getTerms d p.1 = .ok terms) :
    resultLoop d l acc =
      .ok (acc ++ l.map (fun p => newResult d (termsOf d p.1) p.1 p.2)) := by
  induction l generalizing acc with
  | nil => simp [resultLoop]
  | cons p l ih =>
    obtain ⟨id, score⟩ := p
    obtain ⟨terms, ht⟩ := h (id, score) (List.mem_cons_self _ _)
    have ht2 : getTerms d id = .ok terms := ht
    simp only [resultLoop, ht2]
    rw [ih _ (fun q hq => h q (List.mem_cons_of_mem _ hq))]
    simp [termsOf, ht2]

theorem resultLoop_scores (d : DB) (l : List (Int × Nat)) (acc rs : List SearchResultLow)
    (h : resultLoop d l acc = .ok rs) :
    ∀ r ∈ rs, r ∈ acc ∨ ∃ p ∈ l, r.F_Score = p.2 := by
  induction l generalizing acc with
  | nil =>
    simp only [resultLoop, Except.ok.injEq] at h
    subst h
    exact fun r hr => Or.inl hr
  | cons p l ih =>
    obtain ⟨id, score⟩ := p
    simp only [resultLoop] at h
    split at h
    · exact absurd h (by simp)
    · rename_i terms _
      intro r hr
      rcases ih _ h r hr with h1 | ⟨q, hq, e⟩
      · rw [List.mem_append, List.mem_singleton] at h1
        rcases h1 with h1 | h1
        · exact Or.inl h1
        · exact Or.inr ⟨(id, score), List.mem_cons_self _ _, by rw [h1]; rfl⟩
      · exact Or.inr ⟨q, List.mem_cons_of_mem _ hq, e⟩

theorem scoreLoop_values (env : Env) (args : ScoreFuzzyArgs)
    (rows : List (Except Err (Int × String))) (m m2 : ScoreMap)
    (h : scoreLoop env args rows m = .ok m2)
    (hval : ∀ p ∈ m, minScore ≤ p.2 ∧ p.2 ≤ 255) : ∀ p ∈ m2, minScore ≤ p.2 ∧ p.2 ≤ 255 := by
  induction rows generalizing m with
  | nil =>
    simp only [scoreLoop, Except.ok.injEq] at h
    subst h
    exact hval
  | cons row rows ih =>
    match row, h with
    | .error err, h => simp [scoreLoop] at h
    | .ok (i, t), h =>
      simp only [scoreLoop] at h
      split_ifs at h with h1 h2
      · exact ih m h hval
      · refine ih _ h (fun p hp => ?_)
        rcases mem_mapSet m i _ p hp with e | e
        · rw [e]
          exact ⟨Nat.le_of_not_lt h1, by simp only; omega⟩
        · exact hval p e
      · exact ih m h hval

theorem fuzzySQL_isSome (n : Nat) (h : 0 < n) : ∃ sqlQuery, fuzzySQL n = some sqlQuery := by
  have hn : ¬ ((n : Int) - 1 < 0) := by omega
  simp [fuzzySQL, strings_Repeat, hn]

theorem fuzzyCollect_scores (env : Env) (d : DB) (args : ScoreFuzzyArgs)
    (rows : List (Except Err (Int × String))) :
    ∀ r ∈ (fuzzyCollect env d args rows).list, minScore ≤ r.F_Score ∧ r.F_Score ≤ 255 := by
  unfold fuzzyCollect
  split
  · simp [Outcome.list]
  · rename_i scoreMap hs
    have hv := scoreLoop_values env args rows [] scoreMap hs (by simp)
    split
    · simp [Outcome.list]
    · rename_i results hr
      intro r hr2
      simp only [Outcome.list, Option.getD_some] at hr2
      rcases resultLoop_scores d _ [] results hr r hr2 with h1 | ⟨p, hp, e⟩
      · simp at h1
      · rw [e]
        exact hv p ((env.range.perm scoreMap).mem_iff.1 hp)

/-! ## The row loops of the prefix and pattern strategies -/

theorem startWithLoop_scores (env : Env) (d : DB) (query : String)
    (rows : List (Except Err (Int × String × String))) (results : List SearchResultLow)
    (handled : List Err)
    (h : ∀ r ∈ results, minScore ≤ r.F_Score ∧ r.F_Score ≤ 255) :
    ∀ r ∈ (startWithLoop env d query rows results handled).list,
      minScore ≤ r.F_Score ∧ r.F_Score ≤ 255 := by
  induction rows generalizing results handled with
  | nil => simpa [startWithLoop, Outcome.list] using h
  | cons row rows ih =>
    match row with
    | .error err => simp [startWithLoop, Outcome.list]
    | .ok (id, term, altsJson) =>
      simp only [startWithLoop]
      split_ifs with h1
      · exact ih _ _ h
      · refine ih _ _ (fun r hr => ?_)
        rw [List.mem_append, List.mem_singleton] at hr
        rcases hr with hr | hr
        · exact h r hr
        · rw [hr]
          exact ⟨Nat.le_of_not_lt h1, by simp only [newResult]; omega⟩

theorem checkTerms_le (checkTerm : String → Nat) (hc : ∀ t, checkTerm t ≤ 255)
    (terms : List String) (score : Nat) (hs : score ≤ 255) :
    checkTerms checkTerm terms score ≤ 255 := by
  induction terms with
  | nil => simpa [checkTerms] using hs
  | cons t terms ih =>
    simp only [checkTerms]
    split_ifs
    · exact hc t
    · exact ih

theorem patternLoop_scores (env : Env) (d : DB) (checkTerm : String → Nat)
    (hc : ∀ t, checkTerm t ≤ 255)
    (rows : List (Except Err (Int × String × String))) (results : List SearchResultLow)
    (handled : List Err)
    (h : ∀ r ∈ results, minScore ≤ r.F_Score ∧ r.F_Score ≤ 255) :
    ∀ r ∈ (patternLoop env d checkTerm rows results handled).list,
      minScore ≤ r.F_Score ∧ r.F_Score ≤ 255 := by
  induction rows generalizing results handled with
  | nil => simpa [patternLoop, Outcome.list] using h
  | cons row rows ih =>
    match row with
    | .error err => simp [patternLoop, Outcome.list]
    | .ok (id, term, altsJson) =>
      simp only [patternLoop]
      split_ifs with h1
      · exact ih _ _ h
      · refine ih _ _ (fun r hr => ?_)
        rw [List.mem_append, List.mem_singleton] at hr
        rcases hr with hr | hr
        · exact h r hr
        · rw [hr]
          exact ⟨Nat.le_of_not_lt h1, checkTerms_le checkTerm hc _ 0 (by omega)⟩

theorem searchPattern_scores (env : Env) (d : DB) (termCond arg : String)
    (checkTerm : String → Nat) (hc : ∀ t, checkTerm t ≤ 255) :
    ∀ r ∈ (searchPattern env d termCond arg checkTerm).list,
      minScore ≤ r.F_Score ∧ r.F_Score ≤ 255 := by
  unfold searchPattern
  split
  · simp [Outcome.list]
  · exact patternLoop_scores env d checkTerm hc _ [] _ (by simp)

theorem SearchStartWith_scores (env : Env) (d : DB) (query : String) :
    ∀ r ∈ (SearchStartWith env d query).list, minScore ≤ r.F_Score ∧ r.F_Score ≤ 255 := by
  unfold SearchStartWith
  simp only
  split
  · simp [Outcome.list]
  · exact startWithLoop_scores env d _ _ [] _ (by simp)

theorem lenScore_eq (term : String) : lenScore term = byteScore term := by
  unfold lenScore byteScore
  split_ifs <;> omega

theorem byteScore_bounds (term : String) : 180 ≤ byteScore term ∧ byteScore term ≤ 200 := by
  unfold byteScore
  split_ifs <;> omega

theorem lenScore_le (term : String) : lenScore term ≤ 255 := by
  rw [lenScore_eq]
  have := byteScore_bounds term
  omega

theorem checkTerms_zero (checkTerm : String → Nat) (terms : List String) :
    checkTerms checkTerm terms 0 = firstPositive checkTerm terms := by
  induction terms with
  | nil => simp [checkTerms, firstPositive]
  | cons t terms ih =>
    by_cases h : 0 < checkTerm t
    · simp [checkTerms, firstPositive, List.find?, h]
    · have h0 : ¬ checkTerm t > 0 := h
      simp only [checkTerms, if_neg h0, ih]
      simp [firstPositive, List.find?, h]

theorem firstPositive_byteScore (term : String) (alts : List String) :
    firstPositive byteScore (term :: alts) = byteScore term := by
  have h : 0 < byteScore term := by
    have := byteScore_bounds term
    omega
  simp [firstPositive, List.find?, h]

theorem patternLoop_lenScore (env : Env) (d : DB) (rows : List (Int × String × String))
    (results : List SearchResultLow) (handled : List Err) :
    (patternLoop env d lenScore (rows.map Except.ok) results handled).results =
      some (results ++ rows.map (fun row =>
        newResult d (rowTerms env row) row.1 (firstPositive byteScore (rowTerms env row)))) := by
  induction rows generalizing results handled with
  | nil => simp [patternLoop]
  | cons row rows ih =>
    obtain ⟨id, term, altsJson⟩ := row
    have hfun : lenScore = byteScore := funext lenScore_eq
    have hs : ¬ checkTerms lenScore (term :: (env.json_Unmarshal altsJson).1) 0 < minScore := by
      rw [checkTerms_zero, hfun, firstPositive_byteScore]
      have := byteScore_bounds term
      simp only [minScore]
      omega
    simp only [List.map_cons, patternLoop, if_neg hs]
    rw [ih]
    simp [rowTerms, checkTerms_zero, hfun]

theorem searchPattern_lenScore (env : Env) (d : DB) (termCond arg : String)
    (rows : List (Int × String × String))
    (h : d.QuerySearch (searchSQL termCond) arg arg = .ok (rows.map Except.ok)) :
    (searchPattern env d termCond arg lenScore).results =
      some (rows.map (fun row =>
        newResult d (rowTerms env row) row.1 (firstPositive byteScore (rowTerms env row)))) := by
  simp only [searchPattern, searchDB, h]
  rw [patternLoop_lenScore]
  simp

theorem SearchFuzzy_feasible (env : Env) (d : DB) (query : String)
    (hlen : 2 ≤ query.utf8ByteSize)
    (hfeas : 0 ≤ ((normalize env query).data.length : Int)
      - 2 * ((strings_Split (normalize env query)).length : Int)) :
    ∃ sqlQuery, fuzzySQL (trigramArgs (strings_Split (normalize env query))).length
        = some sqlQuery ∧
      SearchFuzzy env d query =
        match d.QueryFuzzy3 sqlQuery (trigramArgs (strings_Split (normalize env query))) with
        | .error err => some (Outcome.mk none [err])
        | .ok rows => some (fuzzyCollect env d
            (fuzzyArgs (normalize env query) (strings_Split (normalize env query))) rows) := by
  have hne := trigramArgs_ne_nil (normalize env query) hfeas
  obtain ⟨sqlQuery, hsql⟩ := fuzzySQL_isSome _ (List.length_pos.2 hne)
  refine ⟨sqlQuery, hsql, ?_⟩
  have h1 : ¬ query.utf8ByteSize < 2 := by omega
  have h2 : ¬ ((normalize env query).data.length : Int)
      - 2 * ((strings_Split (normalize env query)).length : Int) < 0 := by omega
  simp only [SearchFuzzy, if_neg h1, if_neg h2, hsql]

theorem SearchFuzzy_total (env : Env) (d : DB) (query : String) :
    ∃ out, SearchFuzzy env d query = some out := by
  by_cases h1 : query.utf8ByteSize < 2
  · exact ⟨Outcome.mk none [], by simp only [SearchFuzzy, if_pos h1]⟩
  · by_cases h2 : ((normalize env query).data.length : Int)
        - 2 * ((strings_Split (normalize env query)).length : Int) < 0
    · exact ⟨SearchStartWith env d (normalize env query),
        by simp only [SearchFuzzy, if_neg h1, if_pos h2]⟩
    · obtain ⟨sqlQuery, _, e⟩ := SearchFuzzy_feasible env d query (by omega) (by omega)
      rw [e]
      split <;> exact ⟨_, rfl⟩

theorem windows_length (word : String) : (windows word).length = word.length - 1 := by
  rw [windows, slide3_length]
  show (word.data.length + 1) - 2 = word.data.length - 1
  omega

theorem windows_eq_map (word : String) :
    windows word = (List.range (word.length - 1)).map (subAt ("\n" ++ word).data) := by
  rw [windows, slide3_eq_map, append_newline_data]
  have h : ('\n' :: word.data).length - 2 = word.length - 1 := by
    show (word.data.length + 1) - 2 = word.data.length - 1
    omega
  rw [h]

/-! ## The properties -/

/-- C1: every result returned by `SearchFuzzy` (which always returns),
`SearchStartWith`, `SearchRegex` and `SearchGlob` has a score between 140 and
255, whatever the store answers and whatever the scoring functions return. -/
theorem results_score_in_range (env : Env) (d : DB) (query : String) :
    (∃ out, SearchFuzzy env d query = some out ∧
      ∀ r ∈ out.list, 140 ≤ r.F_Score ∧ r.F_Score ≤ 255) ∧
    (∀ r ∈ (SearchStartWith env d query).list, 140 ≤ r.F_Score ∧ r.F_Score ≤ 255) ∧
    (∀ r ∈ (SearchRegex env d query).1.list, 140 ≤ r.F_Score ∧ r.F_Score ≤ 255) ∧
    (∀ r ∈ (SearchGlob env d query).1.list, 140 ≤ r.F_Score ∧ r.F_Score ≤ 255) := by
  refine ⟨?_, SearchStartWith_scores env d query,
    searchPattern_scores env d _ _ lenScore lenScore_le,
    searchPattern_scores env d _ _ lenScore lenScore_le⟩
  by_cases h1 : query.utf8ByteSize < 2
  · exact ⟨Outcome.mk none [], by simp only [SearchFuzzy, if_pos h1], by simp [Outcome.list]⟩
  · by_cases h2 : ((normalize env query).data.length : Int)
        - 2 * ((strings_Split (normalize env query)).length : Int) < 0
    · exact ⟨SearchStartWith env d (normalize env query),
        by simp only [SearchFuzzy, if_neg h1, if_pos h2], SearchStartWith_scores env d _⟩
    · obtain ⟨sqlQuery, _, e⟩ := SearchFuzzy_feasible env d query (by omega) (by omega)
      rw [e]
      split
      · exact ⟨_, rfl, by simp [Outcome.list]⟩
      · exact ⟨_, rfl, fuzzyCollect_scores env d _ _⟩

/-- C1, witness: the result of `SearchStartWith` for the query `a`, with score 200. -/
theorem results_score_in_range_witness :
    (SearchStartWith sampleEnv letterDB "a").list.map (fun r => r.F_Score) = [200] ∧
    140 ≤ (newResult letterDB ["a", ""] 1 200).F_Score ∧
    (newResult letterDB ["a", ""] 1 200).F_Score ≤ 255 :=
  ⟨by decide, (results_score_in_range sampleEnv letterDB "a").2.1
    (newResult letterDB ["a", ""] 1 200)
    (by
      have e : (SearchStartWith sampleEnv letterDB "a").list
          = [newResult letterDB ["a", ""] 1 200] := rfl
      rw [e]
      exact List.mem_singleton.2 rfl)⟩

/-- C2: in the trigram generation of `SearchFuzzy`, a word of `L` runes yields
the `L - 1` substrings `e_runes[i : i+3]` of the word left-padded with the
sentinel, each 3 runes long, the first one starting with the sentinel; the
argument list `sqlArgs` has no repetition and holds exactly the windows of the
words of the query. -/
theorem trigram_generation (query : String) :
    (∀ word ∈ strings_Split query,
      windows word = (List.range (word.length - 1)).map (subAt ("\n" ++ word).data) ∧
      (windows word).length = word.length - 1 ∧
      (∀ s ∈ windows word, s.length = 3) ∧
      (∀ s ∈ (windows word).head?, s.data.head? = some '\n') ∧
      ∀ st, wordLoop st word = (windows word).foldl addSub st) ∧
    (trigramArgs (strings_Split query)).Nodup ∧
    ∀ s, s ∈ trigramArgs (strings_Split query) ↔
      ∃ word ∈ strings_Split query, s ∈ windows word := by
  refine ⟨fun word _ => ⟨?_, ?_, ?_, ?_, fun st => wordLoop_eq st word⟩,
    trigramArgs_nodup _, mem_trigramArgs _⟩
  · exact windows_eq_map word
  · exact windows_length word
  · exact slide3_mem_length _
  · intro s hs
    match hw : word.data, hs with
    | [], hs => simp [windows, hw, slide3] at hs
    | [b], hs => simp [windows, hw, slide3] at hs
    | b :: c :: rest, hs =>
      simp only [windows, hw, slide3, List.head?_cons, Option.mem_def, Option.some.injEq] at hs
      rw [← hs]
      rfl

/-- C2, witness: the windows of the query `cat catalog`; the window `cat`,
produced by both words, is listed once. -/
theorem trigram_generation_witness :
    trigramArgs (strings_Split "cat catalog") = ["\nca", "cat", "ata", "tal", "alo", "log"] ∧
    windows "cat" = ["\nca", "cat"] ∧
    "cat" ∈ trigramArgs (strings_Split "cat catalog") :=
  ⟨by decide, by decide,
    ((trigram_generation "cat catalog").2.2 "cat").2 ⟨"catalog", by decide, by decide⟩⟩

/-- C3 (as the code has it): when the anchored pattern `^query$` is rejected by
`regexp.MatchString` and the entry terms of the store are text, `SearchRegex`
returns, with no results and a nil error; on a store that is not empty the
first call of the registered function fails the statement, and the wrapped
error goes to `ErrorHandler`. -/
theorem SearchRegex_invalid_pattern (env : Env)
    (MatchString : String → String → Except Err Bool) (st : RegexpStore) (query : String)
    (cause : Err)
    (hbad : ∀ text, MatchString ("^" ++ query ++ "$") text = .error cause)
    (htext : ∀ row ∈ st.joined, ∃ term, row.2.1 = Value.text term) :
    ∃ out, SearchRegexOnStore env MatchString st query = some (out, none) ∧
      out.list = [] ∧
      (st.joined = [] → out.handled = []) ∧
      (st.joined ≠ [] → out.results = none ∧
        out.handled = [Err.sqlQuery (searchSQL "REGEXP ?") (Err.badRegexp cause)]) := by
  cases hj : st.joined with
  | nil =>
    refine ⟨Outcome.mk (some []) [], ?_, rfl, fun _ => rfl, fun h => absurd rfl h⟩
    simp [SearchRegexOnStore, hj, scanJoin, groupById, SearchRegex, searchPattern, searchDB,
      withRegexpAnswer, patternLoop]
  | cons row rest =>
    obtain ⟨term, hterm⟩ := htext row (by rw [hj]; exact List.mem_cons_self _ _)
    refine ⟨Outcome.mk none [Err.sqlQuery (searchSQL "REGEXP ?") (Err.badRegexp cause)],
      ?_, rfl, fun h => absurd h (by simp), fun _ => ⟨rfl, rfl⟩⟩
    simp [SearchRegexOnStore, hj, scanJoin, whereRegexp, regexpFunc, hterm, hbad,
      SearchRegex, searchPattern, searchDB, withRegexpAnswer]

/-- C3, witness: the pattern `[` on the store with the entry `cat`. -/
theorem SearchRegex_invalid_pattern_witness :
    ∃ out, SearchRegexOnStore sampleEnv sampleMatchString catStore "[" = some (out, none) ∧
      out.list = [] ∧
      (catStore.joined = [] → out.handled = []) ∧
      (catStore.joined ≠ [] → out.results = none ∧
        out.handled = [Err.sqlQuery (searchSQL "REGEXP ?")
          (Err.badRegexp (Err.ext "error parsing regexp: missing closing ]"))]) :=
  SearchRegex_invalid_pattern sampleEnv sampleMatchString catStore "["
    (Err.ext "error parsing regexp: missing closing ]") (fun _ => rfl)
    (fun row hrow => ⟨"cat", by
      have h : row = (1, Value.text "cat", Value.null) := List.mem_singleton.1 hrow
      rw [h]⟩)

/-- C3, counterexample: for the query `[`, whose pattern `^[$` is rejected by
`regexp.MatchString`, `SearchRegex` returns nil results and a nil error, the
failure having gone to `ErrorHandler`. For the query made of one backslash,
itself rejected by `regexp.MatchString`, the pattern handed to the engine
compiles and `SearchRegex` returns the entry `$`, again with a nil error. On a
store whose entry term is NULL the call panics. -/
theorem SearchRegex_invalid_pattern_nil_error :
    (sampleMatchString "^[$" "cat").toOption = none ∧
    (SearchRegexOnStore sampleEnv sampleMatchString catStore "[").map
        (fun r => (r.1.results.isNone, r.1.handled, r.2))
      = some (true, [Err.sqlQuery (searchSQL "REGEXP ?")
          (Err.badRegexp (Err.ext "error parsing regexp: missing closing ]"))], none) ∧
    (sampleMatchString backslash "$").toOption = none ∧
    (SearchRegexOnStore sampleEnv sampleMatchString dollarStore backslash).map
        (fun r => (r.1.list.map (fun x => (x.F_Terms, x.F_Score)), r.1.handled, r.2))
      = some ([(["$", ""], 199)], [], none) ∧
    (SearchRegexOnStore sampleEnv sampleMatchString nullTermStore "[").isNone = true := by
  decide

/-- On the store with the entry `cat`, without alternates, the pattern `dog`
does not match the entry term, the registered function is called on the NULL
alternate, and the call panics. -/
theorem SearchRegexOnStore_panics_on_null_alternate :
    (SearchRegexOnStore sampleEnv sampleMatchString catStore "dog").isNone = true ∧
    (SearchRegexOnStore sampleEnv sampleMatchString catStore "cat").map
        (fun r => (r.1.list.map (fun x => (x.F_Terms, x.F_Score)), r.1.handled, r.2))
      = some ([(["cat", ""], 197)], [], none) := by
  decide

/-- C4 (as the code has it): when every row scans, `SearchRegex` and `SearchGlob`
return one result per row, in order, whose score is the term score of the first
term (primary first, then alternates) with a positive term score, the term
score being `200 - n` for a term of `n < 20` bytes and 180 from 20 bytes on;
that first term is always the primary term. -/
theorem pattern_score_first_term (env : Env) (d : DB) (query : String)
    (rows : List (Int × String × String)) :
    (d.QuerySearch (searchSQL "REGEXP ?") ("^" ++ query ++ "$") ("^" ++ query ++ "$")
        = .ok (rows.map Except.ok) →
      (SearchRegex env d query).1.results = some (rows.map (fun row =>
        newResult d (rowTerms env row) row.1 (firstPositive byteScore (rowTerms env row))))) ∧
    (d.QuerySearch (searchSQL "GLOB ?") query query = .ok (rows.map Except.ok) →
      (SearchGlob env d query).1.results = some (rows.map (fun row =>
        newResult d (rowTerms env row) row.1 (firstPositive byteScore (rowTerms env row))))) ∧
    (∀ terms, checkTerms lenScore terms 0 = firstPositive byteScore terms) ∧
    (∀ row, firstPositive byteScore (rowTerms env row) = byteScore row.2.1) := by
  refine ⟨fun h => searchPattern_lenScore env d _ _ rows h,
    fun h => searchPattern_lenScore env d _ _ rows h, fun terms => ?_, fun row => ?_⟩
  · rw [checkTerms_zero, funext lenScore_eq]
  · exact firstPositive_byteScore _ _

/-- C4, witness: a row with a primary term of 28 bytes, followed by the empty
alternate decoded from `[null]`, scores 180, the score of the primary term,
not the larger score 200 of the alternate. -/
theorem pattern_score_first_term_witness :
    (SearchGlob sampleEnv longTermDB "a*").1.results = some
      ([(1, "a primary term of many bytes", "[null]")].map (fun row =>
        newResult longTermDB (rowTerms sampleEnv row) row.1
          (firstPositive byteScore (rowTerms sampleEnv row)))) ∧
    firstPositive byteScore (rowTerms sampleEnv (1, "a primary term of many bytes", "[null]"))
      = 180 ∧ byteScore "" = 200 :=
  ⟨(pattern_score_first_term sampleEnv longTermDB "a*"
      [(1, "a primary term of many bytes", "[null]")]).2.1 rfl,
    by decide, by decide⟩

/-- C4, counterexample: the term `é` has one rune and two bytes; its row gets
score 198 from `SearchGlob` and `SearchRegex`, while the term score by runes of
the first term with a positive score is 199. -/
theorem pattern_score_counts_bytes :
    (SearchGlob sampleEnv accentDB "é").1.list.map (fun r => (r.F_Terms, r.F_Score))
      = [(["é", ""], 198)] ∧
    (SearchRegex sampleEnv accentDB "é").1.list.map (fun r => (r.F_Terms, r.F_Score))
      = [(["é", ""], 198)] ∧
    firstPositive runeScore ["é", ""] = 199 := by
  decide

/-- C5: when the trigram statement returns `rows`, every row scans and every
term lookup succeeds, `SearchFuzzy` returns one result for each pair of a
duplicate-free list `m` of (entry id, score) pairs, and `m` holds the pair
`(id, s)` exactly when `s` is the maximum score over the rows of `id` and is at
least 140: one result with the maximum score for an entry whose maximum reaches
140, none for an entry whose rows all score below 140. -/
theorem fuzzy_keeps_max_per_entry (env : Env) (d : DB) (query : String)
    (rows : List (Int × String))
    (hlen : 2 ≤ query.utf8ByteSize)
    (hfeas : 0 ≤ ((normalize env query).data.length : Int)
      - 2 * ((strings_Split (normalize env query)).length : Int))
    (hrows : ∀ sqlQuery,
      fuzzySQL (trigramArgs (strings_Split (normalize env query))).length = some sqlQuery →
      d.QueryFuzzy3 sqlQuery (trigramArgs (strings_Split (normalize env query)))
        = .ok (rows.map Except.ok))
    (hterms : ∀ row ∈ rows, ∃ terms, getTerms d row.1 = .ok terms) :
    ∃ m : List (Int × Nat),
      SearchFuzzy env d query = some (Outcome.mk
        (some (m.map (fun p => newResult d (termsOf d p.1) p.1 p.2))) []) ∧
      (m.map Prod.fst).Nodup ∧
      ∀ id s, (id, s) ∈ m ↔
        (s = maxRowScore (fun term => env.ScoreFuzzySingle term
            (fuzzyArgs (normalize env query) (strings_Split (normalize env query))) % 256)
            rows id ∧ 140 ≤ s) := by
  obtain ⟨sqlQuery, hsql, e⟩ := SearchFuzzy_feasible env d query hlen hfeas
  rw [hrows sqlQuery hsql] at e
  obtain ⟨m2, hloop, hnd, hval, hget⟩ := scoreLoop_ok env
    (fuzzyArgs (normalize env query) (strings_Split (normalize env query))) rows []
    (by simp) (by simp)
  have hkey : ∀ id s, (id, s) ∈ m2 ↔
      (s = maxRowScore (fun term => env.ScoreFuzzySingle term
          (fuzzyArgs (normalize env query) (strings_Split (normalize env query))) % 256)
          rows id ∧ 140 ≤ s) := by
    intro id s
    have hg := hget id
    rw [keptScore_eq] at hg
    simp only [mapGet, minScore] at hg
    constructor
    · intro hm
      have h1 := mapGet_of_mem m2 hnd id s hm
      have h2 : 140 ≤ s := hval (id, s) hm
      rw [h1] at hg
      split_ifs at hg with hc
      · exact ⟨by omega, h2⟩
      · omega
    · rintro ⟨h1, h2⟩
      rw [← h1, if_pos h2] at hg
      have hne : mapGet m2 id ≠ 0 := by omega
      have hmem := mem_of_mapGet m2 id hne
      have hs : mapGet m2 id = s := by omega
      rwa [hs] at hmem
  have hperm := env.range.perm m2
  have hts : ∀ p ∈ env.range.order m2, ∃ terms, getTerms d p.1 = .ok terms := by
    intro p hp
    have hp2 : (p.1, p.2) ∈ m2 := hperm.mem_iff.1 hp
    obtain ⟨h1, h2⟩ := (hkey p.1 p.2).1 hp2
    obtain ⟨row, hrow, hid⟩ := exists_row_of_maxRowScore _ rows p.1 (by rw [← h1]; omega)
    rw [← hid]
    exact hterms row hrow
  refine ⟨env.range.order m2, ?_, ?_, fun id s => ?_⟩
  · rw [e]
    simp only [fuzzyCollect, hloop, resultLoop_ok d _ [] hts, List.nil_append]
  · exact (hperm.map Prod.fst).nodup_iff.2 hnd
  · rw [hperm.mem_iff]
    exact hkey id s

/-- C5, witness: for the query `cat` the rows `(1, cat)`, `(2, catalog)`,
`(1, cats)` score 200, 100 and 150: one result, for entry 1, with score 200. -/
theorem fuzzy_keeps_max_per_entry_witness :
    ∃ m : List (Int × Nat),
      SearchFuzzy sampleEnv sampleDB "cat" = some (Outcome.mk
        (some (m.map (fun p => newResult sampleDB (termsOf sampleDB p.1) p.1 p.2))) []) ∧
      (m.map Prod.fst).Nodup ∧
      ∀ id s, (id, s) ∈ m ↔
        (s = maxRowScore (fun term => sampleEnv.ScoreFuzzySingle term
            (fuzzyArgs (normalize sampleEnv "cat") (strings_Split (normalize sampleEnv "cat")))
              % 256)
            [(1, "cat"), (2, "catalog"), (1, "cats")] id ∧ 140 ≤ s) :=
  fuzzy_keeps_max_per_entry sampleEnv sampleDB "cat" [(1, "cat"), (2, "catalog"), (1, "cats")]
    (by decide) (by decide) (fun _ _ => rfl) (by
      intro row hrow
      simp only [List.mem_cons, List.mem_singleton, List.not_mem_nil, or_false] at hrow
      rcases hrow with h | h | h <;> subst h
      · exact ⟨["cat", "cats"], rfl⟩
      · exact ⟨["catalog"], rfl⟩
      · exact ⟨["cat", "cats"], rfl⟩)

/-- C6, at the failing inputs: the query `a` followed by a space (normalized
form `a`) and the query `é` (two bytes) have a normalized form of one rune,
pass the guard `len(query) < 2` and are answered by `SearchStartWith`, with a
result; the query `a` is answered with nil. -/
theorem fuzzy_one_letter_has_results :
    (normalize sampleEnv "a ").data.length = 1 ∧
    (SearchFuzzy sampleEnv letterDB "a ").map
        (fun out => out.list.map (fun r => (r.F_Terms, r.F_Score)))
      = some [(["a", ""], 200)] ∧
    "é".utf8ByteSize = 2 ∧ (normalize sampleEnv "é").data.length = 1 ∧
    (SearchFuzzy sampleEnv accentPrefixDB "é").map
        (fun out => out.list.map (fun r => (r.F_Terms, r.F_Score)))
      = some [(["é", ""], 200)] ∧
    (SearchFuzzy sampleEnv letterDB "a").map (fun out => out.list.length) = some 0 := by
  decide

/-- C7, at the failing input: the query `a` has one rune and one word, fewer
runes than twice its word count; `SearchFuzzy` returns nil for it without
consulting the store, while `SearchStartWith` returns the entry `a`. -/
theorem fuzzy_one_letter_not_delegated :
    ((normalize sampleEnv "a").data.length : Int)
      < 2 * ((strings_Split (normalize sampleEnv "a")).length : Int) ∧
    (SearchFuzzy sampleEnv letterDB "a").map (fun out => (out.results.isNone, out.handled))
      = some (true, []) ∧
    (SearchStartWith sampleEnv letterDB "a").list.map (fun r => (r.F_Terms, r.F_Score))
      = [(["a", ""], 200)] := by
  decide

/-- C8, at the failing input: the row `(1, cat, [5])` scans, the decoding of
its alternates fails, the error goes to `ErrorHandler`, and `SearchStartWith`,
`SearchRegex` and `SearchGlob` each still return a result for the row. -/
theorem json_failure_keeps_results :
    (sampleEnv.json_Unmarshal "[5]").2
      = some (Err.ext "json: cannot unmarshal number into Go value of type string") ∧
    (SearchStartWith sampleEnv numberAltDB "cat").handled
      = [Err.ext "json: cannot unmarshal number into Go value of type string"] ∧
    (SearchStartWith sampleEnv numberAltDB "cat").list.map (fun r => (r.F_Terms, r.F_Score))
      = [(["cat", ""], 200)] ∧
    (SearchRegex sampleEnv numberAltDB "cat").1.handled
      = [Err.ext "json: cannot unmarshal number into Go value of type string"] ∧
    (SearchRegex sampleEnv numberAltDB "cat").1.list.map (fun r => (r.F_Terms, r.F_Score))
      = [(["cat", ""], 197)] ∧
    (SearchGlob sampleEnv numberAltDB "cat").1.handled
      = [Err.ext "json: cannot unmarshal number into Go value of type string"] ∧
    (SearchGlob sampleEnv numberAltDB "cat").1.list.map (fun r => (r.F_Terms, r.F_Score))
      = [(["cat", ""], 197)] := by
  decide

/-- C9, at the failing input: `EntryByIndex(1)` reports the terms of entry 2
with score 0, and its accessor loads the article of entry 1, not the article
of entry 2; the accessor of `EntryByIndex(0)` finds no article at all. -/
theorem EntryByIndex_article_of_other_entry :
    (EntryByIndex sampleDB 1).map (fun r => (r.F_Score, r.F_Terms, r.Items ()))
      = some (0, ["catalog"], some [SearchResultItem.mk 'h' "A1"]) ∧
    getTerms sampleDB 2 = .ok ["catalog"] ∧
    readArticle sampleDB 2 = some [SearchResultItem.mk 'h' "A2"] ∧
    (EntryByIndex sampleDB 0).map (fun r => (r.F_Score, r.F_Terms, r.Items ()))
      = some (0, ["cat", "cats"], none) :=
  ⟨by decide, rfl, by decide, by decide⟩

/-- C10: for a normalized query that passes the feasibility check, the list
`sqlArgs` is not empty, the count `len(sqlArgs)-1` given to `strings.Repeat`
is not negative and the statement text is built without a panic; on every
query of at least 2 bytes with this normalized form `SearchFuzzy` sends the
statement with these arguments to the store and returns. -/
theorem fuzzy_args_nonempty (query : String)
    (h : 0 ≤ (query.data.length : Int) - 2 * ((strings_Split query).length : Int)) :
    trigramArgs (strings_Split query) ≠ [] ∧
    0 ≤ ((trigramArgs (strings_Split query)).length : Int) - 1 ∧
    (∃ marks, strings_Repeat "?, " (((trigramArgs (strings_Split query)).length : Int) - 1)
      = some marks) ∧
    ∀ env d raw, 2 ≤ raw.utf8ByteSize → normalize env raw = query →
      ∃ sqlQuery, fuzzySQL (trigramArgs (strings_Split query)).length = some sqlQuery ∧
        SearchFuzzy env d raw =
          match d.QueryFuzzy3 sqlQuery (trigramArgs (strings_Split query)) with
          | .error err => some (Outcome.mk none [err])
          | .ok rows => some (fuzzyCollect env d (fuzzyArgs query (strings_Split query)) rows) := by
  have hne := trigramArgs_ne_nil query h
  have hpos : 0 < (trigramArgs (strings_Split query)).length := List.length_pos.2 hne
  have hn : ¬ (((trigramArgs (strings_Split query)).length : Int) - 1 < 0) := by omega
  refine ⟨hne, by omega, ⟨String.join (List.replicate
    (((trigramArgs (strings_Split query)).length : Int) - 1).toNat "?, "),
    by simp only [strings_Repeat, if_neg hn]⟩, fun env d raw hlen hq => ?_⟩
  subst hq
  exact SearchFuzzy_feasible env d raw hlen h

/-- C10, witness: the normalized query `cat`, with two arguments. -/
theorem fuzzy_args_nonempty_witness :
    trigramArgs (strings_Split "cat") = ["\nca", "cat"] ∧
    (∃ sqlQuery, fuzzySQL (trigramArgs (strings_Split "cat")).length = some sqlQuery ∧
      SearchFuzzy sampleEnv sampleDB " Cat" =
        match sampleDB.QueryFuzzy3 sqlQuery (trigramArgs (strings_Split "cat")) with
        | .error err => some (Outcome.mk none [err])
        | .ok rows =>
          some (fuzzyCollect sampleEnv sampleDB (fuzzyArgs "cat" (strings_Split "cat")) rows)) :=
  ⟨by decide,
    (fuzzy_args_nonempty "cat" (by decide)).2.2.2 sampleEnv sampleDB " Cat" (by decide)
      (by decide)⟩

end SqlDict
